import Mathlib

/-!
Verification development for the tg-assistant repository.

Shallow embedding of the code in `src/db.py` (SQLite-backed message store)
and `src/main.py` (backfill scanner, deep-link builder, ProxyAPI response
parsing, and the `/find` reconciliation pipeline), together with theorems
settling the specification claims.

Modelling conventions:
- machine integers are `Int`/`Nat` (no overflow is relevant here);
- the SQLite `messages` table is a `List MessageRecord` in insertion order;
  `INSERT OR IGNORE` keyed on the `id` primary key is an append guarded by
  an id-membership test, `UPDATE ... SET processed = 1` is a map;
- `ORDER BY date ASC` on a `TEXT` column is modelled by sorting on the
  stored date string with the lexicographic string order;
- Python `json.loads` is modelled by an executable recursive-descent JSON
  reader (`json_loads`).  Known deliberate restrictions of the model:
  JSON numbers are integers (the protocol only uses integer ids; inputs
  with fractional or exponent parts are out of the model), `\uXXXX`
  escapes map to the code point without surrogate-pair combination, and
  Python `str.strip()` strips the ASCII whitespace characters;
- fallible code returns `Option`: `none` models an uncaught Python
  exception (for `find_vacancies`) or a parse failure (for the parsers).
-/

namespace TgAssistant

/-! ### Characters used symbolically -/

/-- The backquote character, U+0060. -/
def backquoteChar : Char := Char.ofNat 96

/-- The opening curly brace character, U+007B. -/
def braceOpenChar : Char := Char.ofNat 123

/-- The closing curly brace character, U+007D. -/
def braceCloseChar : Char := Char.ofNat 125

/-! ### Python string helpers

Models of the Python `str` methods used by `_parse_proxyapi_json`:
`strip()`, `lstrip()`, `strip(chars)`, `startswith`, `lower`, `find`,
`rfind` and slicing, all on `List Char`. -/

/-- Characters stripped by Python `str.strip()` (ASCII whitespace:
space, tab, newline, carriage return, vertical tab, form feed). -/
def isPySpace (c : Char) : Bool :=
  c == ' ' || c == '\t' || c == '\n' || c == '\r' ||
    c == Char.ofNat 11 || c == Char.ofNat 12

/-- Python `str.lstrip(chars)`: drop the leading characters satisfying `p`. -/
def lstripBy (p : Char → Bool) (l : List Char) : List Char :=
  l.dropWhile p

/-- Python `str.rstrip(chars)`: drop the trailing characters satisfying `p`. -/
def rstripBy (p : Char → Bool) (l : List Char) : List Char :=
  (l.reverse.dropWhile p).reverse

/-- Python `str.strip(chars)`: strip both ends. -/
def stripBy (p : Char → Bool) (l : List Char) : List Char :=
  rstripBy p (lstripBy p l)

/-- Python `str.strip()` (whitespace). -/
def pyStrip (l : List Char) : List Char := stripBy isPySpace l

/-- Python `str.lstrip()` (whitespace). -/
def pyLstrip (l : List Char) : List Char := lstripBy isPySpace l

/-- Python `text.startswith("```")`. -/
def startsWithTicks (l : List Char) : Bool :=
  match l with
  | a :: b :: c :: _ => a == backquoteChar && b == backquoteChar && c == backquoteChar
  | _ => false

/-- Python `text.lower().startswith("json")`. -/
def lowerPrefixIsJson (l : List Char) : Bool :=
  match l with
  | a :: b :: c :: d :: _ =>
      a.toLower == 'j' && b.toLower == 's' && c.toLower == 'o' && d.toLower == 'n'
  | _ => false

/-- Python `text.find(c)`: index of the first occurrence, if any. -/
def findIdxChar (c : Char) : List Char → Option Nat
  | [] => none
  | a :: rest => if a == c then some 0 else (findIdxChar c rest).map (· + 1)

/-- Python `text.rfind(c)`: index of the last occurrence, if any. -/
def rfindIdxChar (c : Char) (l : List Char) : Option Nat :=
  (findIdxChar c l.reverse).map (fun i => l.length - 1 - i)

/-- Python `text[a : b + 1]` (both indices in range in our uses). -/
def sliceIncl (l : List Char) (a b : Nat) : List Char :=
  (l.take (b + 1)).drop a

/-! ### JSON values and a model of `json.loads` -/

/-- A parsed JSON value, as produced by `json.loads`.  Numbers are
restricted to integers (see the file comment). -/
inductive Json where
  | null : Json
  | bool (b : Bool) : Json
  | num (n : Int) : Json
  | str (s : String) : Json
  | arr (elems : List Json) : Json
  | obj (fields : List (String × Json)) : Json
  deriving Repr, Inhabited

/-- JSON inter-token whitespace (RFC 8259). -/
def isJsonWs (c : Char) : Bool :=
  c == ' ' || c == '\t' || c == '\n' || c == '\r'

/-- Value of a hexadecimal digit, if the character is one. -/
def hexVal (c : Char) : Option Nat :=
  if c.isDigit then some (c.toNat - 48)
  else if 'a' ≤ c && c ≤ 'f' then some (c.toNat - 87)
  else if 'A' ≤ c && c ≤ 'F' then some (c.toNat - 55)
  else none

/-- Read the body of a JSON string after the opening quote; returns the
decoded characters and the remainder after the closing quote. -/
def parseStrChars : List Char → Option (List Char × List Char)
  | [] => none
  | c :: rest =>
    if c == '"' then some ([], rest)
    else if c == '\\' then
      match rest with
      | [] => none
      | e :: r2 =>
        if e == '"' || e == '\\' || e == '/' then
          (parseStrChars r2).map (fun p => (e :: p.1, p.2))
        else if e == 'b' then (parseStrChars r2).map (fun p => (Char.ofNat 8 :: p.1, p.2))
        else if e == 'f' then (parseStrChars r2).map (fun p => (Char.ofNat 12 :: p.1, p.2))
        else if e == 'n' then (parseStrChars r2).map (fun p => ('\n' :: p.1, p.2))
        else if e == 'r' then (parseStrChars r2).map (fun p => ('\r' :: p.1, p.2))
        else if e == 't' then (parseStrChars r2).map (fun p => ('\t' :: p.1, p.2))
        else if e == 'u' then
          match r2 with
          | a :: b :: c2 :: d :: r3 =>
            match hexVal a, hexVal b, hexVal c2, hexVal d with
            | some x, some y, some z, some w =>
              (parseStrChars r3).map
                (fun p => (Char.ofNat (((x * 16 + y) * 16 + z) * 16 + w) :: p.1, p.2))
            | _, _, _, _ => none
          | _ => none
        else none
    else (parseStrChars rest).map (fun p => (c :: p.1, p.2))

/-- Numeric value of a digit string. -/
def digitsVal (ds : List Char) : Nat :=
  ds.foldl (fun acc c => acc * 10 + (c.toNat - 48)) 0

/-- Read a nonempty run of digits as a natural number; fails when the run
is followed by a fraction or exponent marker (floats are out of the
model). -/
def parseNumDigits (l : List Char) : Option (Nat × List Char) :=
  let ds := l.takeWhile Char.isDigit
  let r := l.dropWhile Char.isDigit
  if ds.isEmpty then none
  else
    match r with
    | c :: _ => if c == '.' || c == 'e' || c == 'E' then none else some (digitsVal ds, r)
    | [] => some (digitsVal ds, [])

mutual

/-- Read one JSON value; returns the value and the unconsumed remainder.
The fuel argument bounds the recursion depth. -/
def parseVal : Nat → List Char → Option (Json × List Char)
  | 0, _ => none
  | fuel + 1, l =>
    match l.dropWhile isJsonWs with
    | [] => none
    | c :: rest =>
      if c == braceOpenChar then
        match rest.dropWhile isJsonWs with
        | [] => none
        | c2 :: r2 =>
          if c2 == braceCloseChar then some (Json.obj [], r2)
          else (parseMembers fuel (c2 :: r2)).map (fun p => (Json.obj p.1, p.2))
      else if c == '[' then
        match rest.dropWhile isJsonWs with
        | [] => none
        | c2 :: r2 =>
          if c2 == ']' then some (Json.arr [], r2)
          else (parseItems fuel (c2 :: r2)).map (fun p => (Json.arr p.1, p.2))
      else if c == '"' then
        (parseStrChars rest).map (fun p => (Json.str (String.mk p.1), p.2))
      else if c == 't' then
        match rest with
        | 'r' :: 'u' :: 'e' :: r => some (Json.bool true, r)
        | _ => none
      else if c == 'f' then
        match rest with
        | 'a' :: 'l' :: 's' :: 'e' :: r => some (Json.bool false, r)
        | _ => none
      else if c == 'n' then
        match rest with
        | 'u' :: 'l' :: 'l' :: r => some (Json.null, r)
        | _ => none
      else if c == '-' then
        match parseNumDigits rest with
        | some (k, r) => some (Json.num (-(k : Int)), r)
        | none => none
      else if c.isDigit then
        match parseNumDigits (c :: rest) with
        | some (k, r) => some (Json.num (k : Int), r)
        | none => none
      else none

/-- Read the members of a JSON object, positioned at the first key. -/
def parseMembers : Nat → List Char → Option (List (String × Json) × List Char)
  | 0, _ => none
  | fuel + 1, l =>
    match l.dropWhile isJsonWs with
    | [] => none
    | c :: rest =>
      if c == '"' then
        match parseStrChars rest with
        | none => none
        | some (key, r1) =>
          match r1.dropWhile isJsonWs with
          | ':' :: r2 =>
            match parseVal fuel r2 with
            | none => none
            | some (v, r3) =>
              match r3.dropWhile isJsonWs with
              | [] => none
              | c4 :: r4 =>
                if c4 == ',' then
                  (parseMembers fuel r4).map (fun p => ((String.mk key, v) :: p.1, p.2))
                else if c4 == braceCloseChar then some ([(String.mk key, v)], r4)
                else none
          | _ => none
      else none

/-- Read the items of a JSON array, positioned at the first item. -/
def parseItems : Nat → List Char → Option (List Json × List Char)
  | 0, _ => none
  | fuel + 1, l =>
    match parseVal fuel l with
    | none => none
    | some (v, r1) =>
      match r1.dropWhile isJsonWs with
      | ',' :: r2 => (parseItems fuel r2).map (fun p => (v :: p.1, p.2))
      | ']' :: r2 => some ([v], r2)
      | _ => none

end

/-- Strip JSON whitespace from both ends. -/
def trimJsonWs (l : List Char) : List Char := stripBy isJsonWs l

/-- Model of Python `json.loads` on a character list: trim surrounding
whitespace, read one value, and require the input to be exhausted. -/
def json_loads_list (l : List Char) : Option Json :=
  let t := trimJsonWs l
  match parseVal (2 * t.length + 2) t with
  | some (v, []) => some v
  | _ => none

/-- Model of Python `json.loads` on a string. -/
def json_loads (s : String) : Option Json :=
  json_loads_list s.toList

/-! ### `main.py`: `_parse_proxyapi_json` -/

/-- Embedding of `_parse_proxyapi_json(content)` from `src/main.py`:
empty text is `None`; otherwise strip whitespace, strip markdown fences
(backquotes on both ends, then an optional leading `json` language tag),
try `json.loads`, and fall back to the substring from the first opening
to the last closing brace.  `none` models the Python `None` result; the
function is total, mirroring the source's catch-all exception handlers.
`fenceStripped` is the fence-handling step (`text.startswith("```")`,
`text.strip("`")`, the optional `json` language tag and `lstrip`). -/
def fenceStripped (text0 : List Char) : List Char :=
  if startsWithTicks text0 then
    let t := stripBy (· == backquoteChar) text0
    if lowerPrefixIsJson t then pyLstrip (t.drop 4) else t
  else text0

/-- The strict-parse-then-brace-fallback tail of `_parse_proxyapi_json`. -/
def parse_proxyapi_json (content : String) : Option Json :=
  if content = "" then none
  else
    let text := fenceStripped (pyStrip content.toList)
    match json_loads_list text with
    | some v => some v
    | none =>
      match findIdxChar braceOpenChar text, rfindIdxChar braceCloseChar text with
      | some s, some e =>
        if s < e then json_loads_list (sliceIncl text s e) else none
      | _, _ => none

/-! ### `db.py`: the message store

`MessageRecord` and the `Database` methods.  The SQLite table
`messages (id INTEGER PRIMARY KEY, chat_id, sender, text, date, processed)`
is a `List MessageRecord` in insertion order.  The `sender` column holds
the numeric `message.sender_id or 0` the callers store, and `date` holds
the ISO-format timestamp string. -/

/-- One row of the `messages` table (`MessageRecord` in `src/db.py`). -/
structure MessageRecord where
  id : Int
  chat_id : Int
  sender : Int
  text : String
  date : String
  processed : Bool
  deriving DecidableEq, Repr, Inhabited

/-- The contents of the `messages` table, in insertion order. -/
abbrev DbState := List MessageRecord

namespace Database

/-- `Database.save_message`: `INSERT OR IGNORE` keyed on the `id` primary
key — append the row unless a row with the same `id` already exists. -/
def save_message (s : DbState) (record : MessageRecord) : DbState :=
  if s.any (fun row => row.id == record.id) then s else s ++ [record]

/-- `Database.count_messages`: `SELECT COUNT(*) FROM messages`. -/
def count_messages (s : DbState) : Nat := s.length

/-- Lexicographic comparison of character lists by code point, modelling
SQLite's byte-wise `TEXT` comparison (identical on the ASCII ISO date
strings the store holds). -/
def charListLe : List Char → List Char → Bool
  | [], _ => true
  | _ :: _, [] => false
  | a :: as, b :: bs =>
    if a.toNat < b.toNat then true
    else if b.toNat < a.toNat then false
    else charListLe as bs

/-- The `ORDER BY date ASC` comparison on the stored date strings
(ISO timestamps compare chronologically). -/
def dateLe (a b : MessageRecord) : Prop :=
  charListLe a.date.toList b.date.toList = true

instance : DecidableRel dateLe := fun a b =>
  inferInstanceAs (Decidable (charListLe a.date.toList b.date.toList = true))

instance : IsTotal MessageRecord dateLe := ⟨by
  suffices h : ∀ x y : List Char, charListLe x y = true ∨ charListLe y x = true by
    intro a b
    exact h _ _
  intro x
  induction x with
  | nil => intro y; left; rfl
  | cons a as ih =>
    intro y
    cases y with
    | nil => right; rfl
    | cons b bs =>
      rw [charListLe, charListLe]
      by_cases h1 : a.toNat < b.toNat
      · left
        simp [h1]
      · by_cases h2 : b.toNat < a.toNat
        · right
          simp [h1, h2]
        · rcases ih bs with h | h
          · left
            simp [h1, h2, h]
          · right
            simp [h1, h2, h]⟩

instance : IsTrans MessageRecord dateLe := ⟨by
  suffices h : ∀ x y z : List Char,
      charListLe x y = true → charListLe y z = true → charListLe x z = true by
    intro a b c hab hbc
    exact h _ _ _ hab hbc
  intro x
  induction x with
  | nil => intro y z _ _; rfl
  | cons a as ih =>
    intro y z hxy hyz
    cases y with
    | nil => exact absurd hxy (by rw [charListLe]; simp)
    | cons b bs =>
      cases z with
      | nil => exact absurd hyz (by rw [charListLe]; simp)
      | cons c cs =>
        rw [charListLe] at hxy hyz ⊢
        by_cases hab : a.toNat < b.toNat
        · by_cases hbc : b.toNat < c.toNat
          · rw [if_pos (show a.toNat < c.toNat by omega)]
          · by_cases hcb : c.toNat < b.toNat
            · rw [if_neg hbc, if_pos hcb] at hyz
              exact absurd hyz (by simp)
            · rw [if_pos (show a.toNat < c.toNat by omega)]
        · by_cases hba : b.toNat < a.toNat
          · rw [if_neg hab, if_pos hba] at hxy
            exact absurd hxy (by simp)
          · rw [if_neg hab, if_neg hba] at hxy
            by_cases hbc : b.toNat < c.toNat
            · rw [if_pos (show a.toNat < c.toNat by omega)]
            · by_cases hcb : c.toNat < b.toNat
              · rw [if_neg hbc, if_pos hcb] at hyz
                exact absurd hyz (by simp)
              · rw [if_neg hbc, if_neg hcb] at hyz
                rw [if_neg (show ¬a.toNat < c.toNat by omega),
                  if_neg (show ¬c.toNat < a.toNat by omega)]
                exact ih bs cs hxy hyz⟩

/-- `Database.fetch_unprocessed(limit)`:
`SELECT ... WHERE processed = 0 ORDER BY date ASC LIMIT ?`. -/
def fetch_unprocessed (s : DbState) (limit : Nat) : List MessageRecord :=
  (List.insertionSort dateLe (s.filter (fun r => !r.processed))).take limit

/-- `Database.mark_processed(ids)`:
`UPDATE messages SET processed = 1 WHERE id IN (...)`; an empty id
sequence returns immediately. -/
def mark_processed (s : DbState) (ids : List Int) : DbState :=
  if ids.isEmpty then s
  else s.map (fun row => if ids.contains row.id then { row with processed := true } else row)

end Database

/-! ### `main.py`: deep links and prompt payload -/

/-- The numeric chat segment computed inside `_chat_link`:
`raw = abs(chat_id); if raw > 10**12: raw = raw - 1000000000000`. -/
def chatSegment (chat_id : Int) : Nat :=
  let raw := chat_id.natAbs
  if raw > 10 ^ 12 then raw - 1000000000000 else raw

/-- `_chat_link(chat_id, message_id)` from `src/main.py`:
`f"https://t.me/c/{raw}/{message_id}"` with the offset-normalized `raw`. -/
def _chat_link (chat_id message_id : Int) : String :=
  "https://t.me/c/" ++ toString (chatSegment chat_id) ++ "/" ++ toString message_id

/-- `build_prompt_payload(records)`: one `"<id>: <text>\nLink: <url>"`
block per record, joined with blank lines. -/
def build_prompt_payload (records : List MessageRecord) : String :=
  String.intercalate "\n\n"
    (records.map (fun rec =>
      toString rec.id ++ ": " ++ rec.text ++ "\nLink: " ++ _chat_link rec.chat_id rec.id))

/-! ### `main.py`: backfill scanner

The Telethon transport is embedded as plain data: a message carries the
fields read by `save_message` in `main.py`, with its creation time as an
integer UTC instant (seconds).  The source's timezone normalization
(`replace(tzinfo=utc)` / `astimezone(utc)`) produces the UTC instant that
is compared against the cutoff; on this representation it is the
identity, so the comparison reads the field directly. -/

/-- A Telethon message as consumed by `save_message` /
`collect_unread_archived_channels` in `src/main.py`. -/
structure TgMessage where
  id : Int
  chat_id : Int
  sender_id : Option Int
  text : Option String
  date : Int
  deriving DecidableEq, Repr

/-- `datetime.isoformat` as an injective encoding of the instant; only
used as an opaque date string by the store. -/
def isoformat (d : Int) : String := toString d

/-- `save_message(db, message, dialog_title)` from `src/main.py`: build a
`MessageRecord` (`sender_id or 0`, `message or ""`, `processed=False`)
and persist it through the store's dedup insert. -/
def save_message (db : DbState) (message : TgMessage) : DbState :=
  Database.save_message db
    { id := message.id
      chat_id := message.chat_id
      sender := message.sender_id.getD 0
      text := (message.text).getD ""
      date := isoformat message.date
      processed := false }

/-- A Telethon dialog as consumed by `collect_unread_archived_channels`:
its archive membership is implicit (the scanner is handed the dialogs of
folder 1), `history` is the full message history newest-first. -/
structure TgDialog where
  id : Int
  name : String
  is_channel : Bool
  read_inbox_max_id : Option Int
  history : List TgMessage
  deriving Repr

/-- `client.iter_messages(dialog.id, min_id=read_max)` with
`read_max = getattr(dialog.dialog, "read_inbox_max_id", None) or 0`:
the messages with id above the read boundary, still newest-first. -/
def dialogStream (d : TgDialog) : List TgMessage :=
  d.history.filter (fun m => d.read_inbox_max_id.getD 0 < m.id)

/-- The inner message loop of `collect_unread_archived_channels`: walk
the newest-first stream, `break` at the first message older than the
cutoff, otherwise persist it and count it. -/
def scanChannelMessages (cutoff : Int) (db : DbState) : List TgMessage → DbState × Nat
  | [] => (db, 0)
  | m :: rest =>
    if m.date < cutoff then (db, 0)
    else
      let p := scanChannelMessages cutoff (save_message db m) rest
      (p.1, p.2 + 1)

/-- `cutoff = datetime.now(timezone.utc) - timedelta(hours=hours)` on
integer seconds. -/
def cutoffOf (now hours : Int) : Int := now - hours * 3600

/-- `collect_unread_archived_channels(client, db, hours)` from
`src/main.py`: over the archived dialogs, skip non-channels, scan each
channel's unread stream against the cutoff, and return the updated store
plus the total number of messages collected. -/
def collect_unread_archived_channels (db : DbState) (dialogs : List TgDialog)
    (now hours : Int) : DbState × Nat :=
  let cutoff := cutoffOf now hours
  dialogs.foldl
    (fun acc dialog =>
      if dialog.is_channel then
        ((scanChannelMessages cutoff acc.1 (dialogStream dialog)).1,
          acc.2 + (scanChannelMessages cutoff acc.1 (dialogStream dialog)).2)
      else acc)
    (db, 0)

/-! ### `main.py`: `find_vacancies` -/

/-- Python truthiness of a parsed JSON value (`if not x`). -/
def pyFalsy (j : Json) : Bool :=
  match j with
  | .null => true
  | .bool b => !b
  | .num n => n == 0
  | .str s => s == ""
  | .arr l => l.isEmpty
  | .obj f => f.isEmpty

/-- `dict.get(k)` on an object produced by `json.loads`; a duplicated
key keeps its last occurrence, as in Python. -/
def lookupField (fields : List (String × Json)) (k : String) : Option Json :=
  ((fields.filter (fun p => p.1 == k)).getLast?).map (fun p => p.2)

mutual

/-- Python `repr` of a parsed JSON value, as used by `str` on
containers (string escaping inside `repr` is out of the model). -/
def pyRepr : Json → String
  | .null => "None"
  | .bool true => "True"
  | .bool false => "False"
  | .num n => toString n
  | .str s => "'" ++ s ++ "'"
  | .arr l => "[" ++ String.intercalate ", " (pyReprList l) ++ "]"
  | .obj f => "\x7b" ++ String.intercalate ", " (pyReprFields f) ++ "\x7d"

/-- `repr` of the items of a list value. -/
def pyReprList : List Json → List String
  | [] => []
  | x :: xs => pyRepr x :: pyReprList xs

/-- `repr` of the entries of a dict value. -/
def pyReprFields : List (String × Json) → List String
  | [] => []
  | (k, v) :: xs => ("'" ++ k ++ "': " ++ pyRepr v) :: pyReprFields xs

end

/-- Python `str` of a parsed JSON value (`f"- {summary} — {link}"`). -/
def pyStr (j : Json) : String :=
  match j with
  | .str s => s
  | j => pyRepr j

/-- Python `r.id == msg_id` where `msg_id` came from `json.loads`: an
int equals an int, a bool equals its 0/1 value, and no other JSON value
equals an int. -/
def idMatches (j : Json) (i : Int) : Bool :=
  match j with
  | .num n => n == i
  | .bool b => (if b then (1 : Int) else 0) == i
  | _ => false

/-- Outcome of `call_proxyapi` as observed by `find_vacancies`:
`failure` is any exception out of the remote call (transport error,
non-success status, timeout — the `except Exception` arm), `success`
carries the extracted `choices[0].message.content` text. -/
inductive CallResult where
  | failure : CallResult
  | success (content : String) : CallResult
  deriving Repr

/-- The match loop of `find_vacancies`: for each item, read `id`
(skipping falsy ids), resolve it against the fetched batch (skipping
misses), and accumulate digest lines and matched ids.  `none` models the
`AttributeError` Python raises at `item.get` when an item is not a
dict. -/
def processMatches (records : List MessageRecord) : List Json → Option (List String × List Int)
  | [] => some ([], [])
  | item :: rest =>
    match item with
    | Json.obj fields =>
      let msg_id := (lookupField fields "id").getD Json.null
      let summary := (lookupField fields "summary").getD (Json.str "")
      if pyFalsy msg_id then processMatches records rest
      else
        match records.find? (fun r => idMatches msg_id r.id) with
        | none => processMatches records rest
        | some rec =>
          (processMatches records rest).map
            (fun p =>
              (("- " ++ pyStr summary ++ " — " ++ _chat_link rec.chat_id rec.id) :: p.1,
                rec.id :: p.2))
    | _ => none

/-- `find_vacancies(db, client, reply_fn)` from `src/main.py`, with the
remote call abstracted into its observed `CallResult`.  Returns the list
of texts passed to `reply_fn` together with the resulting store state;
`none` models an uncaught exception (`parsed.get` on a non-dict,
iterating a non-list `matches`, or `item.get` on a non-dict item). -/
def find_vacancies (db : DbState) (call : CallResult) : Option (List String × DbState) :=
  let records := Database.fetch_unprocessed db 200
  if records.isEmpty then some (["Новых необработанных сообщений нет."], db)
  else
    match call with
    | .failure => some (["Не удалось получить ответ ProxyAPI."], db)
    | .success content =>
      match parse_proxyapi_json content with
      | none => some (["Не удалось разобрать ответ ProxyAPI (не JSON)."], db)
      | some parsed =>
        if pyFalsy parsed then
          some (["Не удалось разобрать ответ ProxyAPI (не JSON)."], db)
        else
          match parsed with
          | Json.obj fields =>
            let mval := (lookupField fields "matches").getD Json.null
            if pyFalsy mval then
              some (["Подходящих вакансий не найдено."],
                Database.mark_processed db (records.map (fun r => r.id)))
            else
              match mval with
              | Json.arr items =>
                match processMatches records items with
                | none => none
                | some p =>
                  let reply :=
                    if p.2.isEmpty then "Подходящих вакансий не найдено."
                    else String.intercalate "\n" ("Найдено:" :: p.1)
                  some ([reply], Database.mark_processed db (records.map (fun r => r.id)))
              | _ => none
          | _ => none

/-! ### Specification-side definitions

Executable restatements of spec properties, compared against the
embedded code in the claim theorems. -/

/-- A response wrapped in fenced code-block markers with a leading
language tag, as in the parser-tolerance property. -/
def mdFence (s : String) : String := "```json\n" ++ s ++ "\n```"

/-- The characters that can start a JSON value; a text none of whose
characters can start a value carries no parseable JSON. -/
def isJsonStartChar (c : Char) : Bool :=
  c == braceOpenChar || c == '[' || c == '"' || c == 't' || c == 'f' ||
    c == 'n' || c == '-' || c.isDigit

/-- The stream has non-increasing timestamps (newest-first). -/
def descendingB : List TgMessage → Bool
  | [] => true
  | [_] => true
  | a :: b :: t => decide (b.date ≤ a.date) && descendingB (b :: t)

/-- Spec reading of the scanner: the messages of the stream at or after
the cutoff. -/
def keptMessages (cutoff : Int) (d : TgDialog) : List TgMessage :=
  (dialogStream d).filter (fun m => decide (cutoff ≤ m.date))

/-- Spec reading of the scanner's effect on the store: persist exactly
the kept messages of every channel dialog, in stream order. -/
def backfillSpecState (db : DbState) (dialogs : List TgDialog) (cutoff : Int) : DbState :=
  dialogs.foldl
    (fun db d => if d.is_channel then (keptMessages cutoff d).foldl save_message db else db)
    db

/-- Spec reading of the scanner's return value: the total number of kept
messages over the channel dialogs. -/
def backfillSpecCount (dialogs : List TgDialog) (cutoff : Int) : Nat :=
  (dialogs.map (fun d => if d.is_channel then (keptMessages cutoff d).length else 0)).sum

/-- The item is a JSON object (a Python dict after `json.loads`). -/
def isObjJson : Json → Bool
  | .obj _ => true
  | _ => false

/-- Spec reading of match resolution: a match item resolves when it is
an object whose `id` member is truthy and references a record of the
batch; it then yields its summary and that record. -/
def resolveMatch (records : List MessageRecord) (item : Json) :
    Option (Json × MessageRecord) :=
  match item with
  | Json.obj fields =>
    let msg_id := (lookupField fields "id").getD Json.null
    let summary := (lookupField fields "summary").getD (Json.str "")
    if pyFalsy msg_id then none
    else (records.find? (fun r => idMatches msg_id r.id)).map (fun rec => (summary, rec))
  | _ => none

/-- The resolved matches of a parsed match list, in list order. -/
def resolvedMatches (records : List MessageRecord) (items : List Json) :
    List (Json × MessageRecord) :=
  items.filterMap (resolveMatch records)

/-- The digest line `- <summary> — <link>` of one resolved match. -/
def digestLine (summary : Json) (rec : MessageRecord) : String :=
  "- " ++ pyStr summary ++ " — " ++ _chat_link rec.chat_id rec.id

/-- The store operations of the `Database` interface, for stating the
monotonicity invariant over arbitrary operation sequences. -/
inductive StoreOp where
  | save (record : MessageRecord) : StoreOp
  | markProcessed (ids : List Int) : StoreOp
  | fetchUnprocessed (limit : Nat) : StoreOp
  | countMessages : StoreOp
  deriving Repr

/-- The state transition of one store operation (the two reads leave the
state unchanged). -/
def applyOp (s : DbState) : StoreOp → DbState
  | .save r => Database.save_message s r
  | .markProcessed ids => Database.mark_processed s ids
  | .fetchUnprocessed _ => s
  | .countMessages => s

/-- Run a sequence of store operations. -/
def applyOps (s : DbState) (ops : List StoreOp) : DbState := ops.foldl applyOp s

/-- Some stored row has the given id. -/
def hasId (s : DbState) (i : Int) : Bool := s.any (fun row => row.id == i)

/-- Every stored row with the given id has its processed flag set. -/
def processedAt (s : DbState) (i : Int) : Bool :=
  s.all (fun row => row.id != i || row.processed)

/-! ## Helper lemmas -/

theorem save_message_of_fresh {s : DbState} {r : MessageRecord}
    (h : ∀ row ∈ s, row.id ≠ r.id) :
    Database.save_message s r = s ++ [r] := by
  have hany : s.any (fun row => row.id == r.id) = false := by
    rw [List.any_eq_false]
    intro row hrow
    simpa using h row hrow
  simp [Database.save_message, hany]

theorem save_message_of_present {s : DbState} {r : MessageRecord}
    (h : ∃ row ∈ s, row.id = r.id) :
    Database.save_message s r = s := by
  have hany : s.any (fun row => row.id == r.id) = true := by
    rw [List.any_eq_true]
    obtain ⟨row, hrow, hid⟩ := h
    exact ⟨row, hrow, by simpa using hid⟩
  simp [Database.save_message, hany]

theorem mem_of_mem_fetch_unprocessed {s : DbState} {limit : Nat} {r : MessageRecord}
    (h : r ∈ Database.fetch_unprocessed s limit) : r ∈ s ∧ r.processed = false := by
  have h1 : r ∈ List.insertionSort Database.dateLe (s.filter (fun x => !x.processed)) :=
    List.take_subset _ _ h
  have h2 : r ∈ s.filter (fun x => !x.processed) := (List.mem_insertionSort _).mp h1
  refine ⟨List.mem_of_mem_filter h2, ?_⟩
  have := List.of_mem_filter h2
  simpa using this

/-! ## Claim theorems -/

/-- C1: for every record `r` and every record `r2` with the same id
(identical or differing payload), saving `r` as the first write of that
id and then saving `r2` leaves exactly one stored row for that id, whose
fields are those of `r`; the second call changes nothing (both calls are
total, hence error-free). -/
theorem claim_C1 (s : DbState) (r r2 : MessageRecord)
    (hfresh : ∀ row ∈ s, row.id ≠ r.id) (hid : r2.id = r.id) :
    Database.save_message (Database.save_message s r) r2 = Database.save_message s r ∧
    (Database.save_message (Database.save_message s r) r2).filter
      (fun row => row.id == r.id) = [r] := by
  have hs1 : Database.save_message s r = s ++ [r] := save_message_of_fresh hfresh
  have hs2 : Database.save_message (Database.save_message s r) r2 =
      Database.save_message s r := by
    apply save_message_of_present
    exact ⟨r, by simp [hs1], by simp [hid]⟩
  refine ⟨hs2, ?_⟩
  rw [hs2, hs1, List.filter_append]
  have hnil : s.filter (fun row => row.id == r.id) = [] := by
    rw [List.filter_eq_nil_iff]
    intro row hrow
    simpa using hfresh row hrow
  simp [hnil]

/-- C1 witness: two concrete writes with the same id and differing
payload, starting from an empty store. -/
theorem claim_C1_witness :
    Database.save_message
        (Database.save_message [] ⟨5, -42, 7, "hello", "2024-05-01", false⟩)
        ⟨5, -42, 7, "changed", "2024-06-01", false⟩ =
      Database.save_message [] ⟨5, -42, 7, "hello", "2024-05-01", false⟩ ∧
    (Database.save_message
        (Database.save_message [] ⟨5, -42, 7, "hello", "2024-05-01", false⟩)
        ⟨5, -42, 7, "changed", "2024-06-01", false⟩).filter
      (fun row => row.id == (5 : Int)) = [⟨5, -42, 7, "hello", "2024-05-01", false⟩] :=
  claim_C1 [] ⟨5, -42, 7, "hello", "2024-05-01", false⟩
    ⟨5, -42, 7, "changed", "2024-06-01", false⟩ (by simp) rfl

/-- C10: deduplication keys on the message id alone, not on
`(chat_id, id)` — after saving two records with equal id but different
`chat_id`, only the first record's row exists, and the second record was
never stored. -/
theorem claim_C10 (s : DbState) (r r2 : MessageRecord)
    (hfresh : ∀ row ∈ s, row.id ≠ r.id) (hid : r2.id = r.id)
    (hchat : r2.chat_id ≠ r.chat_id) :
    Database.save_message (Database.save_message s r) r2 = s ++ [r] ∧
    (s ++ [r]).filter (fun row => row.id == r.id) = [r] ∧
    r2 ∉ s ++ [r] := by
  have hs1 : Database.save_message s r = s ++ [r] := save_message_of_fresh hfresh
  have hs2 : Database.save_message (Database.save_message s r) r2 = s ++ [r] := by
    rw [hs1] at *
    apply save_message_of_present
    exact ⟨r, by simp, by simp [hid]⟩
  refine ⟨hs2, ?_, ?_⟩
  · rw [List.filter_append]
    have hnil : s.filter (fun row => row.id == r.id) = [] := by
      rw [List.filter_eq_nil_iff]
      intro row hrow
      simpa using hfresh row hrow
    simp [hnil]
  · intro hmem
    rcases List.mem_append.mp hmem with hmem | hmem
    · exact hfresh r2 hmem hid
    · have : r2 = r := by simpa using hmem
      exact hchat (by rw [this])

/-- C10 witness: same id 5 from two different conversations; the second
message is discarded. -/
theorem claim_C10_witness :
    Database.save_message
        (Database.save_message [] ⟨5, -100, 1, "a", "2024-01-01", false⟩)
        ⟨5, -200, 2, "b", "2024-01-02", false⟩ = [⟨5, -100, 1, "a", "2024-01-01", false⟩] ∧
    List.filter (fun row => row.id == (5 : Int))
      [(⟨5, -100, 1, "a", "2024-01-01", false⟩ : MessageRecord)] =
      [⟨5, -100, 1, "a", "2024-01-01", false⟩] ∧
    (⟨5, -200, 2, "b", "2024-01-02", false⟩ : MessageRecord) ∉
      [(⟨5, -100, 1, "a", "2024-01-01", false⟩ : MessageRecord)] :=
  claim_C10 [] ⟨5, -100, 1, "a", "2024-01-01", false⟩ ⟨5, -200, 2, "b", "2024-01-02", false⟩
    (by simp) rfl (by decide)

/-- C3: for every stored state and every limit, `fetch_unprocessed(limit)`
returns at most `limit` records, all unprocessed, sorted ascending by
their stored timestamp regardless of insertion order. -/
theorem claim_C3 (s : DbState) (limit : Nat) :
    (Database.fetch_unprocessed s limit).length ≤ limit ∧
    (Database.fetch_unprocessed s limit).all (fun r => !r.processed) = true ∧
    List.Pairwise Database.dateLe (Database.fetch_unprocessed s limit) := by
  refine ⟨List.length_take_le _ _, ?_, ?_⟩
  · rw [List.all_eq_true]
    intro r hr
    have := (mem_of_mem_fetch_unprocessed hr).2
    simp [this]
  · have hsorted : List.Pairwise Database.dateLe
        (List.insertionSort Database.dateLe (s.filter (fun r => !r.processed))) :=
      List.sorted_insertionSort Database.dateLe _
    exact hsorted.sublist (List.take_sublist _ _)

/-- C4: the deep-link transform is deterministic (a pure function of
`(chat_id, message_id)` producing the canonical URL form), its numeric
chat segment strips the platform's `-100...` offset from a channel-style
id, and leaves the absolute value of a non-offset id unchanged. -/
theorem claim_C4 :
    (∀ chat_id message_id : Int,
      _chat_link chat_id message_id =
        "https://t.me/c/" ++ toString (chatSegment chat_id) ++ "/" ++ toString message_id) ∧
    (∀ n : Nat, 0 < n → chatSegment (-(1000000000000 + (n : Int))) = n) ∧
    (∀ chat_id : Int, chat_id.natAbs ≤ 10 ^ 12 → chatSegment chat_id = chat_id.natAbs) := by
  refine ⟨fun _ _ => rfl, ?_, ?_⟩
  · intro n hn
    have habs : (-(1000000000000 + (n : Int))).natAbs = 1000000000000 + n := by
      rw [Int.natAbs_neg]
      omega
    simp only [chatSegment, habs]
    rw [if_pos (by omega)]
    omega
  · intro chat_id h
    simp only [chatSegment]
    rw [if_neg (by omega)]

/-- C4 witness: a channel-style id with the `-100` prefix and a plain
negative chat id. -/
theorem claim_C4_witness :
    _chat_link (-1001234567890) 99 =
      "https://t.me/c/" ++ toString (chatSegment (-1001234567890)) ++ "/" ++ toString (99 : Int) ∧
    chatSegment (-(1000000000000 + ((1234567890 : Nat) : Int))) = 1234567890 ∧
    chatSegment (-55) = ((-55 : Int)).natAbs :=
  ⟨claim_C4.1 (-1001234567890) 99, claim_C4.2.1 1234567890 (by norm_num),
    claim_C4.2.2 (-55) (by norm_num)⟩

/-- One store operation preserves "the record with this id exists and is
processed". -/
theorem applyOp_preserves_processed (op : StoreOp) (s : DbState) (i : Int)
    (hhas : hasId s i = true) (hproc : processedAt s i = true) :
    hasId (applyOp s op) i = true ∧ processedAt (applyOp s op) i = true := by
  cases op with
  | save r =>
    rw [applyOp, Database.save_message]
    by_cases hany : s.any (fun row => row.id == r.id) = true
    · rw [if_pos hany]
      exact ⟨hhas, hproc⟩
    · rw [if_neg hany]
      have hne : r.id ≠ i := by
        intro hri
        rw [hasId, List.any_eq_true] at hhas
        obtain ⟨row, hrow, hbeq⟩ := hhas
        apply hany
        rw [List.any_eq_true]
        refine ⟨row, hrow, ?_⟩
        simp only [beq_iff_eq] at hbeq ⊢
        omega
      constructor
      · rw [hasId, List.any_append]
        rw [hasId] at hhas
        simp [hhas]
      · rw [processedAt, List.all_append]
        rw [processedAt] at hproc
        have hbne : (r.id != i) = true := by
          simp [hne]
        simp [hproc, hbne]
  | markProcessed ids =>
    rw [applyOp, Database.mark_processed]
    by_cases hids : ids.isEmpty = true
    · rw [if_pos hids]
      exact ⟨hhas, hproc⟩
    · rw [if_neg hids]
      constructor
      · rw [hasId, List.any_eq_true]
        rw [hasId, List.any_eq_true] at hhas
        obtain ⟨row, hrow, hbeq⟩ := hhas
        refine ⟨_, List.mem_map_of_mem _ hrow, ?_⟩
        by_cases hc : row.id ∈ ids <;> simpa [hc] using hbeq
      · rw [processedAt, List.all_eq_true]
        intro row' hrow'
        rw [List.mem_map] at hrow'
        obtain ⟨row, hrow, rfl⟩ := hrow'
        rw [processedAt, List.all_eq_true] at hproc
        have hp := hproc row hrow
        by_cases hc : row.id ∈ ids
        · simp [hc]
        · simpa [hc] using hp
  | fetchUnprocessed limit => exact ⟨hhas, hproc⟩
  | countMessages => exact ⟨hhas, hproc⟩

/-- C9: the processed flag is monotonic â over any sequence of store
operations (`save_message`, `fetch_unprocessed`, `mark_processed`,
`count_messages`), a record whose processed flag is set keeps existing
and keeps its flag set: `save_message` never overwrites an existing row
and `mark_processed` only sets the flag. -/
theorem claim_C9 (ops : List StoreOp) (s : DbState) (i : Int)
    (hhas : hasId s i = true) (hproc : processedAt s i = true) :
    hasId (applyOps s ops) i = true ∧ processedAt (applyOps s ops) i = true := by
  induction ops generalizing s with
  | nil => exact ⟨hhas, hproc⟩
  | cons op rest ih =>
    have h1 := applyOp_preserves_processed op s i hhas hproc
    exact ih (applyOp s op) h1.1 h1.2

/-- C9 witness: a processed row with id 3 survives a duplicate insert
with the same id, a mark of other ids, and the two reads. -/
theorem claim_C9_witness :
    hasId (applyOps [⟨3, -7, 1, "t", "2024-01-01", true⟩]
      [StoreOp.save ⟨3, -7, 9, "overwrite", "2024-02-02", false⟩,
        StoreOp.markProcessed [5, 6], StoreOp.fetchUnprocessed 10,
        StoreOp.countMessages]) 3 = true ∧
    processedAt (applyOps [⟨3, -7, 1, "t", "2024-01-01", true⟩]
      [StoreOp.save ⟨3, -7, 9, "overwrite", "2024-02-02", false⟩,
        StoreOp.markProcessed [5, 6], StoreOp.fetchUnprocessed 10,
        StoreOp.countMessages]) 3 = true :=
  claim_C9 _ _ 3 (by decide) (by decide)

/-- The stream stays non-increasing after dropping its head. -/
theorem descendingB_tail {a : TgMessage} {rest : List TgMessage}
    (h : descendingB (a :: rest) = true) : descendingB rest = true := by
  cases rest with
  | nil => rfl
  | cons b t =>
    rw [descendingB, Bool.and_eq_true] at h
    exact h.2

/-- In a non-increasing stream, every later message is at most as new as
the head. -/
theorem descendingB_head_le {a : TgMessage} {rest : List TgMessage}
    (h : descendingB (a :: rest) = true) : ∀ x ∈ rest, x.date ≤ a.date := by
  induction rest generalizing a with
  | nil => simp
  | cons b t ih =>
    rw [descendingB, Bool.and_eq_true, decide_eq_true_eq] at h
    obtain ⟨hba, ht⟩ := h
    intro x hx
    rcases List.mem_cons.mp hx with rfl | hx
    · exact hba
    · exact le_trans (ih ht x hx) hba

/-- On a non-increasing stream, the scanner's break-at-cutoff loop saves
and counts exactly the messages at or after the cutoff. -/
theorem scanChannelMessages_eq_filter (cutoff : Int) (db : DbState)
    (l : List TgMessage) (h : descendingB l = true) :
    scanChannelMessages cutoff db l =
      ((l.filter (fun m => decide (cutoff ≤ m.date))).foldl save_message db,
        (l.filter (fun m => decide (cutoff ≤ m.date))).length) := by
  induction l generalizing db with
  | nil => rfl
  | cons m rest ih =>
    by_cases hm : m.date < cutoff
    · rw [scanChannelMessages, if_pos hm]
      have hfilter : (m :: rest).filter (fun x => decide (cutoff ≤ x.date)) = [] := by
        rw [List.filter_eq_nil_iff]
        intro x hx
        rcases List.mem_cons.mp hx with rfl | hx
        · simp
          omega
        · have := descendingB_head_le h x hx
          simp
          omega
      rw [hfilter]
      rfl
    · rw [scanChannelMessages, if_neg hm]
      rw [ih (save_message db m) (descendingB_tail h)]
      have hfilter : (m :: rest).filter (fun x => decide (cutoff ≤ x.date)) =
          m :: rest.filter (fun x => decide (cutoff ≤ x.date)) := by
        rw [List.filter_cons_of_pos]
        simp
        omega
      rw [hfilter]
      simp

/-- The dialog fold of the scanner, for an arbitrary accumulator. -/
theorem collect_foldl_spec (cutoff : Int) (dialogs : List TgDialog)
    (h : ∀ d ∈ dialogs, d.is_channel = true → descendingB (dialogStream d) = true) :
    ∀ acc : DbState × Nat,
      dialogs.foldl
        (fun acc dialog =>
          if dialog.is_channel then
            ((scanChannelMessages cutoff acc.1 (dialogStream dialog)).1,
              acc.2 + (scanChannelMessages cutoff acc.1 (dialogStream dialog)).2)
          else acc) acc =
      (backfillSpecState acc.1 dialogs cutoff, acc.2 + backfillSpecCount dialogs cutoff) := by
  induction dialogs with
  | nil =>
    intro acc
    simp [backfillSpecState, backfillSpecCount]
  | cons d ds ih =>
    intro acc
    have hds : ∀ d ∈ ds, d.is_channel = true → descendingB (dialogStream d) = true :=
      fun x hx => h x (List.mem_cons_of_mem _ hx)
    rw [List.foldl_cons]
    by_cases hd : d.is_channel = true
    · rw [if_pos hd]
      rw [scanChannelMessages_eq_filter cutoff acc.1 (dialogStream d) (h d (List.mem_cons_self _ _) hd)]
      rw [ih hds]
      simp only [backfillSpecState, backfillSpecCount, keptMessages, List.foldl_cons,
        List.map_cons, List.sum_cons, if_pos hd]
      refine Prod.ext rfl ?_
      simp only []
      omega
    · rw [if_neg hd]
      rw [ih hds]
      simp only [backfillSpecState, backfillSpecCount, List.foldl_cons,
        List.map_cons, List.sum_cons, if_neg hd]
      refine Prod.ext rfl ?_
      simp only []
      omega

/-- C2: for conversation streams yielded newest-first with descending
timestamps, the backfill scanner persists exactly the prefix of each
channel stream at or after `cutoff = now - hours` (the early-exit loop
coincides with the timestamp filter), and returns the total number of
messages persisted over the qualifying (channel) conversations. -/
theorem claim_C2 (db : DbState) (dialogs : List TgDialog) (now hours : Int)
    (h : ∀ d ∈ dialogs, d.is_channel = true → descendingB (dialogStream d) = true) :
    collect_unread_archived_channels db dialogs now hours =
      (backfillSpecState db dialogs (cutoffOf now hours),
        backfillSpecCount dialogs (cutoffOf now hours)) := by
  have := collect_foldl_spec (cutoffOf now hours) dialogs h (db, 0)
  simpa [collect_unread_archived_channels] using this

/-- C2 witness: one channel whose newest-first stream crosses the
cutoff, one non-channel dialog, one channel with nothing unread. -/
theorem claim_C2_witness :
    collect_unread_archived_channels []
      [⟨-100500, "jobs", true, some 3,
          [⟨9, -100500, some 44, some "new", 5000⟩,
            ⟨8, -100500, none, some "mid", 3700⟩,
            ⟨7, -100500, none, some "old", 2599⟩,
            ⟨6, -100500, none, some "older", 2598⟩]⟩,
        ⟨77, "group", false, none, [⟨1, 77, none, some "x", 9000⟩]⟩,
        ⟨-200600, "quiet", true, some 50, []⟩]
      6200 1 =
      (backfillSpecState []
        [⟨-100500, "jobs", true, some 3,
            [⟨9, -100500, some 44, some "new", 5000⟩,
              ⟨8, -100500, none, some "mid", 3700⟩,
              ⟨7, -100500, none, some "old", 2599⟩,
              ⟨6, -100500, none, some "older", 2598⟩]⟩,
          ⟨77, "group", false, none, [⟨1, 77, none, some "x", 9000⟩]⟩,
          ⟨-200600, "quiet", true, some 50, []⟩]
        (cutoffOf 6200 1),
        backfillSpecCount
          [⟨-100500, "jobs", true, some 3,
              [⟨9, -100500, some 44, some "new", 5000⟩,
                ⟨8, -100500, none, some "mid", 3700⟩,
                ⟨7, -100500, none, some "old", 2599⟩,
                ⟨6, -100500, none, some "older", 2598⟩]⟩,
            ⟨77, "group", false, none, [⟨1, 77, none, some "x", 9000⟩]⟩,
            ⟨-200600, "quiet", true, some 50, []⟩]
          (cutoffOf 6200 1)) :=
  claim_C2 _ _ 6200 1 (by decide)

/-- Marking a present id sets its processed flag everywhere. -/
theorem mark_processed_sets {db : DbState} {ids : List Int} {i : Int}
    (hmem : ∃ row ∈ db, row.id = i) (hid : i ∈ ids) :
    hasId (Database.mark_processed db ids) i = true ∧
    processedAt (Database.mark_processed db ids) i = true := by
  have hidsne : ids.isEmpty = false := by
    cases ids with
    | nil => cases hid
    | cons a t => rfl
  rw [Database.mark_processed, if_neg (by simp [hidsne])]
  constructor
  · obtain ⟨row, hrow, hrid⟩ := hmem
    rw [hasId, List.any_eq_true]
    refine ⟨_, List.mem_map_of_mem _ hrow, ?_⟩
    have hc : row.id ∈ ids := hrid ▸ hid
    simp [hc, hrid, hid]
  · rw [processedAt, List.all_eq_true]
    intro row' h'
    rw [List.mem_map] at h'
    obtain ⟨row, hrow, rfl⟩ := h'
    by_cases hc : row.id ∈ ids
    · simp [hc]
    · have hne : row.id ≠ i := fun he => hc (he ▸ hid)
      simp [hc, hne]

/-- The match loop on a list of object items runs without exception and
produces one digest line and one matched id per resolved match, in
order, dropping everything else. -/
theorem processMatches_eq_resolved (records : List MessageRecord) (items : List Json)
    (h : ∀ it ∈ items, isObjJson it = true) :
    processMatches records items =
      some ((resolvedMatches records items).map (fun p => digestLine p.1 p.2),
        (resolvedMatches records items).map (fun p => p.2.id)) := by
  induction items with
  | nil => rfl
  | cons item rest ih =>
    have hitem := h item (List.mem_cons_self _ _)
    have hrest : ∀ it ∈ rest, isObjJson it = true :=
      fun it hit => h it (List.mem_cons_of_mem _ hit)
    have ih' := ih hrest
    cases item with
    | obj fields =>
      by_cases hfalsy : pyFalsy ((lookupField fields "id").getD Json.null) = true
      · simp only [processMatches, resolvedMatches, resolveMatch, List.filterMap_cons,
          if_pos hfalsy]
        exact ih'
      · cases hfind : records.find?
            (fun r => idMatches ((lookupField fields "id").getD Json.null) r.id) with
        | none =>
          simp only [processMatches, resolvedMatches, resolveMatch, List.filterMap_cons,
            if_neg hfalsy, hfind, Option.map_none']
          exact ih'
        | some rec =>
          simp only [processMatches, resolvedMatches, resolveMatch, List.filterMap_cons,
            if_neg hfalsy, hfind, Option.map_some']
          rw [resolvedMatches] at ih'
          simp [ih', digestLine]
    | null => simp [isObjJson] at hitem
    | bool b => simp [isObjJson] at hitem
    | num n => simp [isObjJson] at hitem
    | str s => simp [isObjJson] at hitem
    | arr l => simp [isObjJson] at hitem

/-- C6: on a non-empty fetched batch, a classifier failure (transport
error, bad status, timeout — the caught exception path) or an
unparseable response each produce exactly one diagnostic reply and leave
the store — hence every processed flag and the next fetch — unchanged. -/
theorem claim_C6 (db : DbState) (content : String)
    (hne : (Database.fetch_unprocessed db 200).isEmpty = false)
    (hparse : parse_proxyapi_json content = none) :
    find_vacancies db CallResult.failure =
      some (["Не удалось получить ответ ProxyAPI."], db) ∧
    find_vacancies db (CallResult.success content) =
      some (["Не удалось разобрать ответ ProxyAPI (не JSON)."], db) := by
  constructor
  · simp [find_vacancies, hne]
  · simp [find_vacancies, hne, hparse]

/-- C6 witness: one unprocessed record; a non-JSON response text. -/
theorem claim_C6_witness :
    find_vacancies [⟨7, -100, 0, "msg", "2024-04-01", false⟩] CallResult.failure =
      some (["Не удалось получить ответ ProxyAPI."],
        [⟨7, -100, 0, "msg", "2024-04-01", false⟩]) ∧
    find_vacancies [⟨7, -100, 0, "msg", "2024-04-01", false⟩]
        (CallResult.success "сервис ответил просто текстом") =
      some (["Не удалось разобрать ответ ProxyAPI (не JSON)."],
        [⟨7, -100, 0, "msg", "2024-04-01", false⟩]) :=
  claim_C6 [⟨7, -100, 0, "msg", "2024-04-01", false⟩] "сервис ответил просто текстом"
    (by rfl) (by rfl)

/-- C7 counterexample: the response text `"\x7b\x7d"` parses
successfully (to the empty JSON object), the fetched batch is non-empty,
yet `find_vacancies` takes the `if not parsed` path — the empty dict is
Python-falsy — replies "could not parse" and marks nothing: the store is
returned unchanged with the record still unprocessed. -/
theorem claim_C7_counterexample :
    json_loads "\x7b\x7d" = some (Json.obj []) ∧
    parse_proxyapi_json "\x7b\x7d" = some (Json.obj []) ∧
    (Database.fetch_unprocessed [⟨10, -100, 0, "t", "2024-01-01", false⟩] 200).isEmpty
      = false ∧
    find_vacancies [⟨10, -100, 0, "t", "2024-01-01", false⟩]
        (CallResult.success "\x7b\x7d") =
      some (["Не удалось разобрать ответ ProxyAPI (не JSON)."],
        [⟨10, -100, 0, "t", "2024-01-01", false⟩]) :=
  ⟨rfl, rfl, rfl, rfl⟩

/-- C7 (amended): for every non-empty fetched batch whose classifier
response parses to a Python-truthy JSON object whose `matches` member is
absent, falsy, or an array of JSON objects, `find_vacancies` emits
exactly one reply and marks the entire fetched batch processed,
regardless of the number of matches. -/
theorem claim_C7 (db : DbState) (content : String) (fields : List (String × Json))
    (hne : (Database.fetch_unprocessed db 200).isEmpty = false)
    (hparse : parse_proxyapi_json content = some (Json.obj fields))
    (hfne : fields.isEmpty = false)
    (hmatches : pyFalsy ((lookupField fields "matches").getD Json.null) = true ∨
      ∃ items, (lookupField fields "matches").getD Json.null = Json.arr items ∧
        ∀ it ∈ items, isObjJson it = true) :
    (find_vacancies db (CallResult.success content)).map (fun p => p.2) =
      some (Database.mark_processed db
        ((Database.fetch_unprocessed db 200).map (fun r => r.id))) ∧
    (find_vacancies db (CallResult.success content)).map (fun p => p.1.length) = some 1 ∧
    (Database.fetch_unprocessed db 200).all (fun r =>
      hasId (Database.mark_processed db
        ((Database.fetch_unprocessed db 200).map (fun x => x.id))) r.id &&
      processedAt (Database.mark_processed db
        ((Database.fetch_unprocessed db 200).map (fun x => x.id))) r.id) = true := by
  have hshape : ∃ reply, find_vacancies db (CallResult.success content) =
      some ([reply], Database.mark_processed db
        ((Database.fetch_unprocessed db 200).map (fun r => r.id))) := by
    have hpf : pyFalsy (Json.obj fields) = false := hfne
    rcases hmatches with hfalsy | ⟨items, hitems, hobjs⟩
    · exact ⟨"Подходящих вакансий не найдено.",
        by simp [find_vacancies, hne, hparse, hpf, hfalsy]⟩
    · by_cases hie : items.isEmpty = true
      · have hfalsy : pyFalsy ((lookupField fields "matches").getD Json.null) = true := by
          rw [hitems]
          simp [pyFalsy, hie]
        exact ⟨"Подходящих вакансий не найдено.",
          by simp [find_vacancies, hne, hparse, hpf, hfalsy]⟩
      · have hfalsy : pyFalsy ((lookupField fields "matches").getD Json.null) = false := by
          rw [hitems]
          simp [pyFalsy]
          simpa using hie
        have hpfa : pyFalsy (Json.arr items) = false := by
          simp only [pyFalsy]
          simpa using hie
        have hpm := processMatches_eq_resolved (Database.fetch_unprocessed db 200) items hobjs
        refine ⟨if ((resolvedMatches (Database.fetch_unprocessed db 200) items).map
            (fun p => p.2.id)).isEmpty then "Подходящих вакансий не найдено."
          else String.intercalate "\n" ("Найдено:" ::
            (resolvedMatches (Database.fetch_unprocessed db 200) items).map
              (fun p => digestLine p.1 p.2)), ?_⟩
        simp [find_vacancies, hne, hparse, hpf, hfalsy, hitems, hpm, hpfa]
  obtain ⟨reply, heq⟩ := hshape
  refine ⟨by simp [heq], by simp [heq], ?_⟩
  rw [List.all_eq_true]
  intro r hr
  have hm := @mark_processed_sets db
    ((Database.fetch_unprocessed db 200).map (fun x => x.id)) r.id
    ⟨r, (mem_of_mem_fetch_unprocessed hr).1, rfl⟩ (List.mem_map_of_mem _ hr)
  simp [hm.1, hm.2]

/-- C7 witness: the end-to-end scenario — batch of ids 10, 11, 12, one
match on id 11, one digest line with record 11's link, all three records
marked processed. -/
theorem claim_C7_witness :
    (find_vacancies
        [⟨10, -1001234567890, 0, "a", "2024-01-01", false⟩,
          ⟨11, -1001234567890, 0, "b", "2024-01-02", false⟩,
          ⟨12, -1001234567890, 0, "c", "2024-01-03", false⟩]
        (CallResult.success
          "\x7b\"matches\":[\x7b\"id\":11,\"summary\":\"Frontend role\"\x7d]\x7d")).map
        (fun p => p.2) =
      some (Database.mark_processed
        [⟨10, -1001234567890, 0, "a", "2024-01-01", false⟩,
          ⟨11, -1001234567890, 0, "b", "2024-01-02", false⟩,
          ⟨12, -1001234567890, 0, "c", "2024-01-03", false⟩]
        ((Database.fetch_unprocessed
          [⟨10, -1001234567890, 0, "a", "2024-01-01", false⟩,
            ⟨11, -1001234567890, 0, "b", "2024-01-02", false⟩,
            ⟨12, -1001234567890, 0, "c", "2024-01-03", false⟩] 200).map (fun r => r.id))) ∧
    (find_vacancies
        [⟨10, -1001234567890, 0, "a", "2024-01-01", false⟩,
          ⟨11, -1001234567890, 0, "b", "2024-01-02", false⟩,
          ⟨12, -1001234567890, 0, "c", "2024-01-03", false⟩]
        (CallResult.success
          "\x7b\"matches\":[\x7b\"id\":11,\"summary\":\"Frontend role\"\x7d]\x7d")).map
        (fun p => p.1.length) = some 1 ∧
    find_vacancies
        [⟨10, -1001234567890, 0, "a", "2024-01-01", false⟩,
          ⟨11, -1001234567890, 0, "b", "2024-01-02", false⟩,
          ⟨12, -1001234567890, 0, "c", "2024-01-03", false⟩]
        (CallResult.success
          "\x7b\"matches\":[\x7b\"id\":11,\"summary\":\"Frontend role\"\x7d]\x7d") =
      some (["Найдено:\n- Frontend role — https://t.me/c/1234567890/11"],
        [⟨10, -1001234567890, 0, "a", "2024-01-01", true⟩,
          ⟨11, -1001234567890, 0, "b", "2024-01-02", true⟩,
          ⟨12, -1001234567890, 0, "c", "2024-01-03", true⟩]) :=
  ⟨(claim_C7
      [⟨10, -1001234567890, 0, "a", "2024-01-01", false⟩,
        ⟨11, -1001234567890, 0, "b", "2024-01-02", false⟩,
        ⟨12, -1001234567890, 0, "c", "2024-01-03", false⟩]
      "\x7b\"matches\":[\x7b\"id\":11,\"summary\":\"Frontend role\"\x7d]\x7d"
      [("matches", Json.arr [Json.obj
        [("id", Json.num 11), ("summary", Json.str "Frontend role")]])]
      rfl rfl rfl
      (Or.inr ⟨[Json.obj [("id", Json.num 11), ("summary", Json.str "Frontend role")]],
        rfl, by decide⟩)).1,
    (claim_C7
      [⟨10, -1001234567890, 0, "a", "2024-01-01", false⟩,
        ⟨11, -1001234567890, 0, "b", "2024-01-02", false⟩,
        ⟨12, -1001234567890, 0, "c", "2024-01-03", false⟩]
      "\x7b\"matches\":[\x7b\"id\":11,\"summary\":\"Frontend role\"\x7d]\x7d"
      [("matches", Json.arr [Json.obj
        [("id", Json.num 11), ("summary", Json.str "Frontend role")]])]
      rfl rfl rfl
      (Or.inr ⟨[Json.obj [("id", Json.num 11), ("summary", Json.str "Frontend role")]],
        rfl, by decide⟩)).2.1,
    rfl⟩

/-- C8 counterexample: a parsed match list containing a non-object item
(`\x7b"matches":[5]\x7d`) is not silently dropped — `item.get("id")`
raises, escalating to a batch-level failure (modelled as `none`), with a
non-empty dispatched batch. -/
theorem claim_C8_counterexample :
    parse_proxyapi_json "\x7b\"matches\":[5]\x7d" =
      some (Json.obj [("matches", Json.arr [Json.num 5])]) ∧
    (Database.fetch_unprocessed [⟨10, -100, 0, "t", "2024-01-01", false⟩] 200).isEmpty
      = false ∧
    find_vacancies [⟨10, -100, 0, "t", "2024-01-01", false⟩]
      (CallResult.success "\x7b\"matches\":[5]\x7d") = none :=
  ⟨rfl, rfl, rfl⟩

/-- C8 (amended): for every parsed match list whose items are JSON
objects, a match whose id is missing, Python-falsy, or referencing a
record not in the dispatched batch is silently dropped — no digest line,
no fabricated record, no error — and the loop yields exactly one digest
line `- <summary> — <link>` and one matched id per resolved match, each
resolved record coming from the batch. -/
theorem claim_C8 (records : List MessageRecord) (items : List Json)
    (h : ∀ it ∈ items, isObjJson it = true) :
    processMatches records items =
      some ((resolvedMatches records items).map (fun p => digestLine p.1 p.2),
        (resolvedMatches records items).map (fun p => p.2.id)) ∧
    (resolvedMatches records items).all
      (fun p => records.any (fun r => decide (r = p.2))) = true := by
  refine ⟨processMatches_eq_resolved records items h, ?_⟩
  rw [List.all_eq_true]
  intro p hp
  rw [resolvedMatches, List.mem_filterMap] at hp
  obtain ⟨it, hit, hres⟩ := hp
  cases it with
  | obj fields =>
    rw [resolveMatch] at hres
    by_cases hfalsy : pyFalsy ((lookupField fields "id").getD Json.null) = true
    · rw [if_pos hfalsy] at hres
      cases hres
    · rw [if_neg hfalsy, Option.map_eq_some'] at hres
      obtain ⟨rec, hfind, hrec⟩ := hres
      have hmem := List.mem_of_find?_eq_some hfind
      rw [List.any_eq_true]
      refine ⟨rec, hmem, ?_⟩
      rw [← hrec]
      simp
  | null => simp [resolveMatch] at hres
  | bool b => simp [resolveMatch] at hres
  | num n => simp [resolveMatch] at hres
  | str s => simp [resolveMatch] at hres
  | arr l => simp [resolveMatch] at hres

/-- C8 witness: a batch with ids 10 and 11 against four object items —
one resolving to id 11, one referencing the absent id 999, one with no
id, one with the falsy id 0 — producing exactly one digest line. -/
theorem claim_C8_witness :
    processMatches
        [⟨10, -100, 0, "a", "d1", false⟩, ⟨11, -1001234567890, 0, "b", "d2", false⟩]
        [Json.obj [("id", Json.num 11), ("summary", Json.str "role")],
          Json.obj [("id", Json.num 999), ("summary", Json.str "ghost")],
          Json.obj [("summary", Json.str "no id")],
          Json.obj [("id", Json.num 0), ("summary", Json.str "falsy")]] =
      some ((resolvedMatches
          [⟨10, -100, 0, "a", "d1", false⟩, ⟨11, -1001234567890, 0, "b", "d2", false⟩]
          [Json.obj [("id", Json.num 11), ("summary", Json.str "role")],
            Json.obj [("id", Json.num 999), ("summary", Json.str "ghost")],
            Json.obj [("summary", Json.str "no id")],
            Json.obj [("id", Json.num 0), ("summary", Json.str "falsy")]]).map
          (fun p => digestLine p.1 p.2),
        (resolvedMatches
          [⟨10, -100, 0, "a", "d1", false⟩, ⟨11, -1001234567890, 0, "b", "d2", false⟩]
          [Json.obj [("id", Json.num 11), ("summary", Json.str "role")],
            Json.obj [("id", Json.num 999), ("summary", Json.str "ghost")],
            Json.obj [("summary", Json.str "no id")],
            Json.obj [("id", Json.num 0), ("summary", Json.str "falsy")]]).map
          (fun p => p.2.id)) ∧
    (resolvedMatches
        [⟨10, -100, 0, "a", "d1", false⟩, ⟨11, -1001234567890, 0, "b", "d2", false⟩]
        [Json.obj [("id", Json.num 11), ("summary", Json.str "role")],
          Json.obj [("id", Json.num 999), ("summary", Json.str "ghost")],
          Json.obj [("summary", Json.str "no id")],
          Json.obj [("id", Json.num 0), ("summary", Json.str "falsy")]]).all
      (fun p =>
        List.any [⟨10, -100, 0, "a", "d1", false⟩, ⟨11, -1001234567890, 0, "b", "d2", false⟩]
          (fun r => decide (r = p.2))) = true ∧
    processMatches
        [⟨10, -100, 0, "a", "d1", false⟩, ⟨11, -1001234567890, 0, "b", "d2", false⟩]
        [Json.obj [("id", Json.num 11), ("summary", Json.str "role")],
          Json.obj [("id", Json.num 999), ("summary", Json.str "ghost")],
          Json.obj [("summary", Json.str "no id")],
          Json.obj [("id", Json.num 0), ("summary", Json.str "falsy")]] =
      some (["- role — https://t.me/c/1234567890/11"], [11]) :=
  ⟨(claim_C8 _ _ (by decide)).1, (claim_C8 _ _ (by decide)).2, rfl⟩

/-! ## Lemmas for the response-parser claim -/

theorem ne_empty_of_toList_cons {s : String} {c : Char} {t : List Char}
    (h : s.toList = c :: t) : ¬s = "" := by
  intro he
  rw [he] at h
  exact List.noConfusion h

theorem exists_append_of_getLast? {α : Type} {l : List α} {b : α}
    (h : l.getLast? = some b) : ∃ y, l = y ++ [b] := by
  induction l with
  | nil => cases h
  | cons a t ih =>
    cases t with
    | nil =>
      simp only [List.getLast?_singleton, Option.some.injEq] at h
      exact ⟨[], by rw [h]; rfl⟩
    | cons a2 t2 =>
      rw [List.getLast?_cons_cons] at h
      obtain ⟨y, hy⟩ := ih h
      exact ⟨a :: y, by rw [List.cons_append, hy]⟩

theorem dropWhile_append_cons {p : Char → Bool} (a : List Char) {c : Char} (d : List Char)
    (hc : p c = false) : (a ++ c :: d).dropWhile p = a.dropWhile p ++ c :: d := by
  induction a with
  | nil => simp [List.dropWhile_cons, hc]
  | cons x xs ih =>
    by_cases hx : p x = true
    · simp [List.dropWhile_cons, hx, ih]
    · simp [List.dropWhile_cons, hx]

theorem rstripBy_append {p : Char → Bool} (y : List Char) {b : Char} (post : List Char)
    (hb : p b = false) : rstripBy p (y ++ b :: post) = y ++ b :: rstripBy p post := by
  unfold rstripBy
  have h1 : (y ++ b :: post).reverse = post.reverse ++ b :: y.reverse := by simp
  rw [h1, dropWhile_append_cons _ _ hb]
  simp

theorem stripBy_wrap {p : Char → Bool} {c b : Char} (mid tail : List Char)
    (hc : p c = false) (hb : p b = false) (htail : rstripBy p tail = []) :
    stripBy p (c :: (mid ++ b :: tail)) = c :: (mid ++ [b]) := by
  unfold stripBy lstripBy
  rw [List.dropWhile_cons_of_neg (by simp [hc])]
  have h2 : c :: (mid ++ b :: tail) = (c :: mid) ++ b :: tail := by simp
  rw [h2, rstripBy_append _ _ hb, htail]
  simp

theorem json_loads_list_congr {l1 l2 : List Char} (h : trimJsonWs l1 = trimJsonWs l2) :
    json_loads_list l1 = json_loads_list l2 := by
  unfold json_loads_list
  rw [h]

theorem startsWithTicks_cons_ne {c : Char} (rest : List Char)
    (hc : (c == backquoteChar) = false) : startsWithTicks (c :: rest) = false := by
  cases rest with
  | nil => rfl
  | cons b t =>
    cases t with
    | nil => rfl
    | cons d u => simp [startsWithTicks, hc]

theorem fenceStripped_of_no_ticks {l : List Char} (h : startsWithTicks l = false) :
    fenceStripped l = l := by
  rw [fenceStripped, if_neg (by simp [h])]

theorem findIdxChar_append {c : Char} (a rest : List Char)
    (ha : ∀ x ∈ a, (x == c) = false) : findIdxChar c (a ++ c :: rest) = some a.length := by
  induction a with
  | nil => simp [findIdxChar]
  | cons x xs ih =>
    have hx := ha x (List.mem_cons_self _ _)
    have ih' := ih (fun y hy => ha y (List.mem_cons_of_mem _ hy))
    simp [findIdxChar, hx, ih']

theorem rfindIdxChar_append {c : Char} (A B : List Char)
    (hB : ∀ x ∈ B, (x == c) = false) : rfindIdxChar c (A ++ c :: B) = some A.length := by
  unfold rfindIdxChar
  have h1 : (A ++ c :: B).reverse = B.reverse ++ c :: A.reverse := by simp
  rw [h1, findIdxChar_append _ _ (fun x hx => hB x (by simpa using hx))]
  simp

theorem lstripBy_suffix (p : Char → Bool) (l : List Char) : lstripBy p l <:+ l :=
  List.dropWhile_suffix p

theorem rstripBy_front (p : Char → Bool) (l : List Char) : rstripBy p l <+: l := by
  apply List.reverse_suffix.mp
  have h : (rstripBy p l).reverse = l.reverse.dropWhile p := by simp [rstripBy]
  rw [h]
  exact List.dropWhile_suffix p

theorem stripBy_within (p : Char → Bool) (l : List Char) : stripBy p l <:+: l := by
  unfold stripBy
  exact (rstripBy_front p _).isInfix.trans (lstripBy_suffix p l).isInfix

theorem sliceIncl_within (l : List Char) (a b : Nat) : sliceIncl l a b <:+: l := by
  unfold sliceIncl
  exact (List.drop_suffix a _).isInfix.trans (List.take_prefix _ l).isInfix

theorem fenceStripped_within (l : List Char) : fenceStripped l <:+: l := by
  rw [fenceStripped]
  by_cases hf : startsWithTicks l = true
  · rw [if_pos hf]
    have h1 : stripBy (· == backquoteChar) l <:+: l := stripBy_within _ l
    by_cases hj : lowerPrefixIsJson (stripBy (· == backquoteChar) l) = true
    · rw [if_pos hj]
      exact ((lstripBy_suffix _ _).isInfix.trans
        ((List.drop_suffix 4 _).isInfix.trans h1))
    · rw [if_neg hj]
      exact h1
  · rw [if_neg hf]

theorem parseVal_none_of_no_start :
    ∀ (fuel : Nat) (l : List Char), (∀ c ∈ l, isJsonStartChar c = false) →
      parseVal fuel l = none := by
  intro fuel
  cases fuel with
  | zero => intro l _; rfl
  | succ fuel =>
    intro l h
    rw [parseVal]
    cases hd : l.dropWhile isJsonWs with
    | nil => rfl
    | cons c rest =>
      have hc : isJsonStartChar c = false :=
        h c ((List.dropWhile_suffix isJsonWs).subset (hd ▸ List.mem_cons_self c rest))
      simp only [isJsonStartChar, Bool.or_eq_false_eq_eq_false_and_eq_false] at hc
      obtain ⟨⟨⟨⟨⟨⟨⟨h1, h2⟩, h3⟩, h4⟩, h5⟩, h6⟩, h7⟩, h8⟩ := hc
      simp [h1, h2, h3, h4, h5, h6, h7, h8]

theorem json_loads_list_none_of_no_start (t : List Char)
    (h : ∀ c ∈ t, isJsonStartChar c = false) : json_loads_list t = none := by
  have h' : ∀ c ∈ trimJsonWs t, isJsonStartChar c = false :=
    fun c hc => h c ((stripBy_within isJsonWs t).sublist.subset hc)
  simp only [json_loads_list]
  rw [parseVal_none_of_no_start _ _ h']

theorem parse_none_of_no_json (s : String)
    (h : ∀ t : List Char, t <:+: s.toList → json_loads_list t = none) :
    parse_proxyapi_json s = none := by
  by_cases hs : s = ""
  · rw [parse_proxyapi_json, if_pos hs]
  · have htext : fenceStripped (pyStrip s.toList) <:+: s.toList :=
      (fenceStripped_within _).trans (stripBy_within _ _)
    simp only [parse_proxyapi_json, if_neg hs]
    rw [h _ htext]
    cases hfind : findIdxChar braceOpenChar (fenceStripped (pyStrip s.toList)) with
    | none => rfl
    | some a =>
      cases hrfind : rfindIdxChar braceCloseChar (fenceStripped (pyStrip s.toList)) with
      | none => rfl
      | some b =>
        show (if a < b then
            json_loads_list (sliceIncl (fenceStripped (pyStrip s.toList)) a b)
          else none) = none
        by_cases hab : a < b
        · rw [if_pos hab]
          exact h _ ((sliceIncl_within _ a b).trans htext)
        · rw [if_neg hab]

theorem stripBy_eq_self {p : Char → Bool} {l : List Char} {c b : Char}
    (hh : l.head? = some c) (hc : p c = false)
    (hl : l.getLast? = some b) (hb : p b = false) : stripBy p l = l := by
  obtain ⟨y, hy⟩ := exists_append_of_getLast? hl
  have hlstrip : lstripBy p l = l := by
    cases l with
    | nil => rfl
    | cons a t =>
      simp only [List.head?_cons, Option.some.injEq] at hh
      exact List.dropWhile_cons_of_neg (by simp [hh, hc])
  unfold stripBy
  rw [hlstrip, hy, rstripBy_append _ _ hb]
  rfl

/-- Strict parsing is unaffected by a trailing newline after a closing
brace. -/
theorem loads_append_newline {j : String} {v : Json} {mid : List Char}
    (hmid : j.toList = braceOpenChar :: (mid ++ [braceCloseChar]))
    (hv : json_loads j = some v) :
    json_loads_list (j.toList ++ ['\n']) = some v := by
  have htrim_j : trimJsonWs j.toList = j.toList := by
    rw [hmid]
    exact stripBy_wrap mid [] (by decide) (by decide) rfl
  have htrim_nl : trimJsonWs (j.toList ++ ['\n']) = trimJsonWs j.toList := by
    rw [htrim_j, hmid]
    have hshape : (braceOpenChar :: (mid ++ [braceCloseChar])) ++ ['\n'] =
        braceOpenChar :: (mid ++ braceCloseChar :: ['\n']) := by simp
    rw [hshape]
    exact stripBy_wrap mid ['\n'] (by decide) (by decide) (by decide)
  rw [json_loads_list_congr htrim_nl]
  exact hv

/-- Raw JSON object text parses directly through the strict attempt. -/
theorem parse_json_direct {j : String} {v : Json} {mid : List Char}
    (hmid : j.toList = braceOpenChar :: (mid ++ [braceCloseChar]))
    (hv : json_loads j = some v) :
    parse_proxyapi_json j = some v := by
  have hne_j : ¬j = "" := ne_empty_of_toList_cons hmid
  have hstrip_j : pyStrip j.toList = j.toList := by
    rw [hmid]
    exact stripBy_wrap mid [] (by decide) (by decide) rfl
  have hfs : fenceStripped (pyStrip j.toList) = j.toList := by
    rw [hstrip_j]
    apply fenceStripped_of_no_ticks
    rw [hmid]
    exact startsWithTicks_cons_ne _ (by decide)
  simp only [parse_proxyapi_json]
  rw [if_neg hne_j, hfs]
  rw [show json_loads_list j.toList = some v from hv]

/-- The same object wrapped in fenced markers with a `json` language tag
parses to the same value. -/
theorem parse_json_fenced {j : String} {v : Json} {mid : List Char}
    (hmid : j.toList = braceOpenChar :: (mid ++ [braceCloseChar]))
    (hv : json_loads j = some v) :
    parse_proxyapi_json (mdFence j) = some v := by
  have hfl2 : (mdFence j).toList = ("```json\n".toList ++ j.toList) ++ "\n```".toList := rfl
  have hhead : (mdFence j).toList.head? = some backquoteChar := rfl
  have hlast : (mdFence j).toList.getLast? = some backquoteChar := by
    rw [hfl2, List.getLast?_append]
    rfl
  have hne : ¬mdFence j = "" := by
    apply @ne_empty_of_toList_cons (mdFence j) backquoteChar
      ("``json\n".toList ++ j.toList ++ "\n```".toList)
    rw [hfl2]
    rfl
  have hstrip : pyStrip (mdFence j).toList = (mdFence j).toList :=
    stripBy_eq_self hhead (by decide) hlast (by decide)
  have hticks : startsWithTicks (mdFence j).toList = true := rfl
  have hls : lstripBy (· == backquoteChar) (mdFence j).toList =
      'j' :: 's' :: 'o' :: 'n' :: '\n' ::
        (j.toList ++ '\n' :: backquoteChar :: backquoteChar :: backquoteChar :: []) := rfl
  have hgraves : stripBy (· == backquoteChar) (mdFence j).toList =
      ('j' :: 's' :: 'o' :: 'n' :: '\n' :: j.toList) ++ ['\n'] := by
    unfold stripBy
    rw [hls]
    have hX : 'j' :: 's' :: 'o' :: 'n' :: '\n' ::
        (j.toList ++ '\n' :: backquoteChar :: backquoteChar :: backquoteChar :: []) =
        ('j' :: 's' :: 'o' :: 'n' :: '\n' :: j.toList) ++
          '\n' :: [backquoteChar, backquoteChar, backquoteChar] := by simp
    rw [hX, rstripBy_append _ _ (by decide)]
    rfl
  have hlower : lowerPrefixIsJson (('j' :: 's' :: 'o' :: 'n' :: '\n' :: j.toList) ++ ['\n']) =
      true := rfl
  have hdrop : ((('j' :: 's' :: 'o' :: 'n' :: '\n' :: j.toList) ++ ['\n']).drop 4) =
      '\n' :: (j.toList ++ ['\n']) := rfl
  have hplstrip : pyLstrip ('\n' :: (j.toList ++ ['\n'])) = j.toList ++ ['\n'] := by
    show List.dropWhile isPySpace ('\n' :: (j.toList ++ ['\n'])) = j.toList ++ ['\n']
    rw [List.dropWhile_cons_of_pos (by decide)]
    rw [hmid]
    exact List.dropWhile_cons_of_neg (by decide)
  have hfsfl : fenceStripped (pyStrip (mdFence j).toList) = j.toList ++ ['\n'] := by
    rw [hstrip, fenceStripped]
    rw [if_pos hticks]
    show (if lowerPrefixIsJson (stripBy (· == backquoteChar) (mdFence j).toList) then
        pyLstrip ((stripBy (· == backquoteChar) (mdFence j).toList).drop 4)
      else stripBy (· == backquoteChar) (mdFence j).toList) = j.toList ++ ['\n']
    rw [hgraves, if_pos hlower, hdrop, hplstrip]
  simp only [parse_proxyapi_json]
  rw [if_neg hne, hfsfl, loads_append_newline hmid hv]

/-- The same object embedded in surrounding prose parses via the
first-brace-to-last-brace fallback. -/
theorem parse_json_prose {j pre post : String} {v : Json} {mid : List Char}
    (hmid : j.toList = braceOpenChar :: (mid ++ [braceCloseChar]))
    (hv : json_loads j = some v)
    (hpre : ∀ x ∈ pre.toList, (x == braceOpenChar) = false)
    (hpost : ∀ x ∈ post.toList, (x == braceCloseChar) = false)
    (hfence : startsWithTicks (pyStrip (pre ++ j ++ post).toList) = false)
    (hstrict : json_loads_list (pyStrip (pre ++ j ++ post).toList) = none) :
    parse_proxyapi_json (pre ++ j ++ post) = some v := by
  have htot : (pre ++ j ++ post).toList = pre.toList ++ j.toList ++ post.toList := rfl
  have htext : pyStrip (pre ++ j ++ post).toList =
      (lstripBy isPySpace pre.toList ++ braceOpenChar :: mid) ++
        braceCloseChar :: rstripBy isPySpace post.toList := by
    rw [htot, hmid]
    show stripBy isPySpace
        (pre.toList ++ (braceOpenChar :: (mid ++ [braceCloseChar])) ++ post.toList) = _
    have hsh : pre.toList ++ (braceOpenChar :: (mid ++ [braceCloseChar])) ++ post.toList =
        pre.toList ++ braceOpenChar :: (mid ++ braceCloseChar :: post.toList) := by simp
    rw [hsh]
    unfold stripBy
    rw [show lstripBy isPySpace
          (pre.toList ++ braceOpenChar :: (mid ++ braceCloseChar :: post.toList)) =
        lstripBy isPySpace pre.toList ++
          braceOpenChar :: (mid ++ braceCloseChar :: post.toList) from
      dropWhile_append_cons _ _ (by decide)]
    have hsh2 : lstripBy isPySpace pre.toList ++
        braceOpenChar :: (mid ++ braceCloseChar :: post.toList) =
        (lstripBy isPySpace pre.toList ++ braceOpenChar :: mid) ++
          braceCloseChar :: post.toList := by simp
    rw [hsh2, rstripBy_append _ _ (by decide)]
  have hnem : ¬(pre ++ j ++ post) = "" := by
    intro he
    have hmem : braceOpenChar ∈ (pre ++ j ++ post).toList := by
      rw [htot, hmid]
      simp
    rw [he] at hmem
    simp at hmem
  have hpre' : ∀ x ∈ lstripBy isPySpace pre.toList, (x == braceOpenChar) = false :=
    fun x hx => hpre x ((lstripBy_suffix _ _).subset hx)
  have hpost' : ∀ x ∈ rstripBy isPySpace post.toList, (x == braceCloseChar) = false :=
    fun x hx => hpost x ((rstripBy_front _ _).subset hx)
  have hfind : findIdxChar braceOpenChar (pyStrip (pre ++ j ++ post).toList) =
      some (lstripBy isPySpace pre.toList).length := by
    rw [htext]
    have hsh3 : (lstripBy isPySpace pre.toList ++ braceOpenChar :: mid) ++
        braceCloseChar :: rstripBy isPySpace post.toList =
        lstripBy isPySpace pre.toList ++
          braceOpenChar :: (mid ++ braceCloseChar :: rstripBy isPySpace post.toList) := by
      simp
    rw [hsh3]
    exact findIdxChar_append _ _ hpre'
  have hrfind : rfindIdxChar braceCloseChar (pyStrip (pre ++ j ++ post).toList) =
      some (lstripBy isPySpace pre.toList ++ braceOpenChar :: mid).length := by
    rw [htext]
    exact rfindIdxChar_append _ _ hpost'
  have hlt : (lstripBy isPySpace pre.toList).length <
      (lstripBy isPySpace pre.toList ++ braceOpenChar :: mid).length := by
    simp
  have hslice : sliceIncl (pyStrip (pre ++ j ++ post).toList)
      (lstripBy isPySpace pre.toList).length
      (lstripBy isPySpace pre.toList ++ braceOpenChar :: mid).length = j.toList := by
    rw [htext]
    unfold sliceIncl
    have hlen : (lstripBy isPySpace pre.toList ++ braceOpenChar :: mid).length + 1 =
        (lstripBy isPySpace pre.toList ++ j.toList).length := by
      rw [hmid]
      simp
      omega
    have hsh4 : (lstripBy isPySpace pre.toList ++ braceOpenChar :: mid) ++
        braceCloseChar :: rstripBy isPySpace post.toList =
        (lstripBy isPySpace pre.toList ++ j.toList) ++ rstripBy isPySpace post.toList := by
      rw [hmid]
      simp
    rw [hsh4, hlen, List.take_left, List.drop_left]
  simp only [parse_proxyapi_json]
  rw [if_neg hnem, fenceStripped_of_no_ticks hfence, hstrict]
  show (match findIdxChar braceOpenChar (pyStrip (pre ++ j ++ post).toList),
      rfindIdxChar braceCloseChar (pyStrip (pre ++ j ++ post).toList) with
    | some s, some e =>
      if s < e then json_loads_list (sliceIncl (pyStrip (pre ++ j ++ post).toList) s e)
      else none
    | _, _ => none) = some v
  rw [hfind, hrfind]
  show (if (lstripBy isPySpace pre.toList).length <
      (lstripBy isPySpace pre.toList ++ braceOpenChar :: mid).length then
      json_loads_list (sliceIncl (pyStrip (pre ++ j ++ post).toList)
        (lstripBy isPySpace pre.toList).length
        (lstripBy isPySpace pre.toList ++ braceOpenChar :: mid).length)
    else none) = some v
  rw [if_pos hlt, hslice]
  exact hv

/-- C5: the response parser yields the same structured result for a JSON
object given raw, wrapped in fenced markers with a `json` language tag,
or embedded in surrounding prose (first `\x7b` to last `\x7d`); and on
empty input, or input no contiguous fragment of which is parseable
JSON, it returns the distinct unparseable outcome (`none`) — it never
throws, being a total function. -/
theorem claim_C5 (j pre post : String) (v : Json)
    (hv : json_loads j = some v)
    (hjh : j.toList.head? = some braceOpenChar)
    (hjl : j.toList.getLast? = some braceCloseChar)
    (hpre : ∀ x ∈ pre.toList, (x == braceOpenChar) = false)
    (hpost : ∀ x ∈ post.toList, (x == braceCloseChar) = false)
    (hfence : startsWithTicks (pyStrip (pre ++ j ++ post).toList) = false)
    (hstrict : json_loads_list (pyStrip (pre ++ j ++ post).toList) = none) :
    parse_proxyapi_json j = some v ∧
    parse_proxyapi_json (mdFence j) = some v ∧
    parse_proxyapi_json (pre ++ j ++ post) = some v ∧
    parse_proxyapi_json "" = none ∧
    (∀ s : String, (∀ t : List Char, t <:+: s.toList → json_loads_list t = none) →
      parse_proxyapi_json s = none) := by
  obtain ⟨mid, hmid⟩ : ∃ mid, j.toList = braceOpenChar :: (mid ++ [braceCloseChar]) := by
    obtain ⟨y, hy⟩ := exists_append_of_getLast? hjl
    cases y with
    | nil =>
      rw [hy] at hjh
      simp only [List.nil_append, List.head?_cons, Option.some.injEq] at hjh
      exact absurd hjh (by decide)
    | cons y0 ys =>
      rw [hy] at hjh
      simp only [List.cons_append, List.head?_cons, Option.some.injEq] at hjh
      refine ⟨ys, ?_⟩
      rw [hy]
      simp [hjh]
  exact ⟨parse_json_direct hmid hv, parse_json_fenced hmid hv,
    parse_json_prose hmid hv hpre hpost hfence hstrict, rfl, parse_none_of_no_json⟩

/-- C5 witness: the protocol's empty-match object raw, fenced, and
embedded in Russian prose, plus the empty and the JSON-free input. -/
theorem claim_C5_witness :
    parse_proxyapi_json "\x7b\"matches\":[]\x7d" =
      some (Json.obj [("matches", Json.arr [])]) ∧
    parse_proxyapi_json (mdFence "\x7b\"matches\":[]\x7d") =
      some (Json.obj [("matches", Json.arr [])]) ∧
    parse_proxyapi_json ("Ответ модели: " ++ "\x7b\"matches\":[]\x7d" ++ " — конец.") =
      some (Json.obj [("matches", Json.arr [])]) ∧
    parse_proxyapi_json "" = none ∧
    parse_proxyapi_json "привет мир" = none := by
  have h := claim_C5 "\x7b\"matches\":[]\x7d" "Ответ модели: " " — конец."
    (Json.obj [("matches", Json.arr [])]) rfl rfl rfl (by decide) (by decide) rfl rfl
  refine ⟨h.1, h.2.1, h.2.2.1, h.2.2.2.1, ?_⟩
  apply h.2.2.2.2
  intro t ht
  exact json_loads_list_none_of_no_start t
    (fun c hc => (by decide : ∀ c ∈ "привет мир".toList, isJsonStartChar c = false) c
      (ht.sublist.subset hc))

end TgAssistant